import Mathlib

/-!
Verification of the loki lowering layer and expression algebra.

This file gives a shallow embedding, in Lean 4, of the parts of the loki
source-to-source transformation toolkit that the specification's claims are
about:

* the expression-tree mappers of `src/loki/expression/visitors.py`
  (`LokiStringifyMapper`, `ExpressionRetriever`, `ExpressionDimensionsMapper`,
  `ExpressionCallbackMapper`), and
* selected handlers of the OFP lowering visitor `src/loki/frontend/ofp2ir.py`
  (`visit_Element`, `visit_statement`'s WHERE branch, `visit_comment`,
  `visit_name`, `visit_literal`).

The expression node classes themselves (`loki/expression/symbol_types.py`) are
not part of the provided sources; the constructors of `Expr` below follow the
specification's data model (section 3), while every function over them is a
transliteration of the corresponding visitor method in
`src/loki/expression/visitors.py` or `src/loki/frontend/ofp2ir.py`.
Python exceptions (attribute errors, index errors, zero division) are modelled
by `Option`/`Except` result types.
-/

/-- The expression node model (specification section 3; the node classes live
in `loki/expression/symbol_types.py`, which is not among the provided source
files, so the constructors follow the spec's tagged-variant list).
`scalar`/`array` carry the optional `parent` link used for derived-type member
chains; `array` also carries the optional explicit `dimensions` list, the
declared `shape` and an optional `initial` value. -/
inductive Expr where
  | scalar (name : String) (parent : Option Expr)
  | array (name : String) (parent : Option Expr) (dimensions : Option (List Expr))
      (shape : Option (List Expr)) (initial : Option Expr)
  | intLit (value : Int) (kind : Option String)
  | floatLit (value : String) (kind : Option String)
  | logicLit (value : String)
  | stringLit (value : String)
  | rangeIdx (lower upper step : Option Expr)
  | operation (ops : List String) (operands : List Expr) (parenthesis : Bool)
  | inlineCall (name : String) (args : List Expr) (kwargs : List (String × Expr))
  | cast (function : Expr) (argument : Expr) (kind : Option Expr)
  | literalList (elements : List Expr)
  | stringConcat (parts : List Expr)

/-! ## ExpressionRetriever (src/loki/expression/visitors.py, lines 94-151)

The retriever is a `WalkMapper`: each handler calls the pre-visit hook
`self.visit(expr)` (not overridden, it returns `True` and has no other
effect), recurses into selected children with `self.rec`, and finally calls
`self.post_visit(expr)`, which appends `expr` to the instance's `exprs` list
when the query holds.  We embed the mutable `exprs` list as an explicit
accumulator threaded through the traversal in visiting order. -/

/-- The `post_visit` hook (lines 105-107): append the node to the accumulated
list when the query holds. -/
def post_visit (q : Expr → Bool) (acc : List Expr) (e : Expr) : List Expr :=
  if q e then acc ++ [e] else acc

mutual

/-- One `self.rec` call of `ExpressionRetriever` on a node, threading the
accumulated `exprs` list.  Handler by handler:
* `map_scalar = WalkMapper.map_variable` (line 109): leaf, no recursion (the
  `parent` link is not visited);
* `map_array` (lines 111-116): recurses into the dimensions when
  `expr.dimensions` is truthy (present and non-empty), then self-test;
* the four literal handlers are `WalkMapper.map_constant`: leaves;
* `map_inline_call = WalkMapper.map_call_with_kwargs` (line 122): recurses
  into the arguments and the keyword-argument values (the function symbol of
  an `InlineCall` is its plain name here and is not a child node);
* `map_cast` (lines 124-130): recurses into the parameters (the single cast
  argument) and into `kind` when it is an expression; the cast's function
  symbol is not visited;
* `map_range_index` (lines 137-145): recurses into whichever of
  lower/upper/step are present;
* `Operation` is handled like the aliased `WalkMapper.map_sum`/`map_product`
  handlers (lines 132-135), recursing into the operands — the class itself is
  in the missing `symbol_types.py`, the spec (section 4.3) lists it among the
  composite nodes that recurse into every structural child;
* `map_string_concat = WalkMapper.map_sum` (line 135): recurses into parts;
* `map_literal_list` (lines 147-151): the source calls `self.visit(elem)` on
  each element — the pre-visit hook, whose result is discarded — and never
  `self.rec(elem)`, so the elements are neither descended into nor tested;
  only the list node itself reaches `post_visit`. -/
def retrieve (q : Expr → Bool) (acc : List Expr) : Expr → List Expr
  | .scalar n p => post_visit q acc (.scalar n p)
  | .array n p dims shape init =>
    post_visit q (retrieveDims q acc dims) (.array n p dims shape init)
  | .intLit v k => post_visit q acc (.intLit v k)
  | .floatLit v k => post_visit q acc (.floatLit v k)
  | .logicLit v => post_visit q acc (.logicLit v)
  | .stringLit v => post_visit q acc (.stringLit v)
  | .rangeIdx l u s =>
    post_visit q (retrieveOpt q (retrieveOpt q (retrieveOpt q acc l) u) s)
      (.rangeIdx l u s)
  | .operation ops xs p => post_visit q (retrieveList q acc xs) (.operation ops xs p)
  | .inlineCall n args kwargs =>
    post_visit q (retrieveKwargs q (retrieveList q acc args) kwargs)
      (.inlineCall n args kwargs)
  | .cast f a k => post_visit q (retrieveOpt q (retrieve q acc a) k) (.cast f a k)
  | .literalList es => post_visit q acc (.literalList es)
  | .stringConcat ps => post_visit q (retrieveList q acc ps) (.stringConcat ps)

/-- Recursion into an optional child (`if expr.lower: self.rec(expr.lower)`
and the like): absent children are skipped. -/
def retrieveOpt (q : Expr → Bool) (acc : List Expr) : Option Expr → List Expr
  | some e => retrieve q acc e
  | none => acc

/-- The dimension recursion of `map_array` (lines 113-115): `if
expr.dimensions:` is Python truthiness, so both an absent and an empty
dimension list are skipped. -/
def retrieveDims (q : Expr → Bool) (acc : List Expr) : Option (List Expr) → List Expr
  | some ds => if ds.isEmpty then acc else retrieveList q acc ds
  | none => acc

/-- Left-to-right recursion into a list of children. -/
def retrieveList (q : Expr → Bool) (acc : List Expr) : List Expr → List Expr
  | [] => acc
  | e :: es => retrieveList q (retrieve q acc e) es

/-- Left-to-right recursion into the keyword-argument values of an inline
call. -/
def retrieveKwargs (q : Expr → Bool) (acc : List Expr) : List (String × Expr) → List Expr
  | [] => acc
  | (_, e) :: es => retrieveKwargs q (retrieve q acc e) es

end

theorem post_visit_append (q : Expr → Bool) (acc l : List Expr) (e : Expr) :
    post_visit q (acc ++ l) e = acc ++ post_visit q l e := by
  unfold post_visit; split <;> simp

mutual

/-- The accumulator threads through `retrieve` by appending: the matches of a
traversal are appended after whatever the `exprs` list already held. -/
theorem retrieve_acc (q : Expr → Bool) (acc : List Expr) (e : Expr) :
    retrieve q acc e = acc ++ retrieve q [] e := by
  cases e with
  | scalar n p =>
    rw [retrieve, retrieve, show acc = acc ++ ([] : List Expr) by simp,
      post_visit_append]
    simp
  | array n p dims shape init =>
    rw [retrieve, retrieve, retrieveDims_acc q acc dims, post_visit_append]
  | intLit v k =>
    rw [retrieve, retrieve, show acc = acc ++ ([] : List Expr) by simp,
      post_visit_append]
    simp
  | floatLit v k =>
    rw [retrieve, retrieve, show acc = acc ++ ([] : List Expr) by simp,
      post_visit_append]
    simp
  | logicLit v =>
    rw [retrieve, retrieve, show acc = acc ++ ([] : List Expr) by simp,
      post_visit_append]
    simp
  | stringLit v =>
    rw [retrieve, retrieve, show acc = acc ++ ([] : List Expr) by simp,
      post_visit_append]
    simp
  | rangeIdx l u s =>
    rw [retrieve, retrieve, retrieveOpt_acc q acc l,
      retrieveOpt_acc q (acc ++ retrieveOpt q [] l) u,
      retrieveOpt_acc q (retrieveOpt q [] l) u,
      retrieveOpt_acc q (acc ++ retrieveOpt q [] l ++ retrieveOpt q [] u) s,
      retrieveOpt_acc q (retrieveOpt q [] l ++ retrieveOpt q [] u) s]
    simp only [List.append_assoc, post_visit_append]
  | operation ops xs p =>
    rw [retrieve, retrieve, retrieveList_acc q acc xs, post_visit_append]
  | inlineCall n args kwargs =>
    rw [retrieve, retrieve, retrieveList_acc q acc args,
      retrieveKwargs_acc q (acc ++ retrieveList q [] args) kwargs,
      retrieveKwargs_acc q (retrieveList q [] args) kwargs,
      List.append_assoc, post_visit_append]
  | cast f a k =>
    rw [retrieve, retrieve, retrieve_acc q acc a,
      retrieveOpt_acc q (acc ++ retrieve q [] a) k,
      retrieveOpt_acc q (retrieve q [] a) k,
      List.append_assoc, post_visit_append]
  | literalList es =>
    rw [retrieve, retrieve, show acc = acc ++ ([] : List Expr) by simp,
      post_visit_append]
    simp
  | stringConcat ps =>
    rw [retrieve, retrieve, retrieveList_acc q acc ps, post_visit_append]

theorem retrieveOpt_acc (q : Expr → Bool) (acc : List Expr) (o : Option Expr) :
    retrieveOpt q acc o = acc ++ retrieveOpt q [] o := by
  cases o with
  | none => simp [retrieveOpt]
  | some e => rw [retrieveOpt, retrieveOpt, retrieve_acc q acc e]

theorem retrieveDims_acc (q : Expr → Bool) (acc : List Expr)
    (o : Option (List Expr)) :
    retrieveDims q acc o = acc ++ retrieveDims q [] o := by
  cases o with
  | none => simp [retrieveDims]
  | some ds =>
    rw [retrieveDims, retrieveDims]
    by_cases h : ds.isEmpty
    · simp [h]
    · simp [h, retrieveList_acc q acc ds]

theorem retrieveList_acc (q : Expr → Bool) (acc : List Expr) (l : List Expr) :
    retrieveList q acc l = acc ++ retrieveList q [] l := by
  cases l with
  | nil => simp [retrieveList]
  | cons e es =>
    rw [retrieveList, retrieveList, retrieve_acc q acc e,
      retrieveList_acc q (acc ++ retrieve q [] e) es,
      retrieveList_acc q (retrieve q [] e) es, List.append_assoc]

theorem retrieveKwargs_acc (q : Expr → Bool) (acc : List Expr)
    (l : List (String × Expr)) :
    retrieveKwargs q acc l = acc ++ retrieveKwargs q [] l := by
  cases l with
  | nil => simp [retrieveKwargs]
  | cons p es =>
    obtain ⟨s, e⟩ := p
    rw [retrieveKwargs, retrieveKwargs, retrieve_acc q acc e,
      retrieveKwargs_acc q (acc ++ retrieve q [] e) es,
      retrieveKwargs_acc q (retrieve q [] e) es, List.append_assoc]

end

/-! ## LokiStringifyMapper (src/loki/expression/visitors.py, lines 12-91) -/

/-- The `basename` of a variable: the suffix of its name after the last `%`,
i.e. Python `name.split('%')[-1]` (the property lives in the missing
`symbol_types.py`; the spec renders derived-type chains as `parent%name`, so
`basename` strips any qualifier prefix from the stored name; for the plain
single-token names built by the lowering it is the name itself). -/
def basename (name : String) : String :=
  String.mk ((name.toList.reverse.takeWhile (fun c => c != '%')).reverse)

/-- Splits a leading run of single-quote characters off a character list,
returning the run length and the remainder. -/
def splitQuoteRun : List Char → Nat × List Char
  | [] => (0, [])
  | c :: cs =>
    if c = '\'' then ((splitQuoteRun cs).1 + 1, (splitQuoteRun cs).2)
    else (0, c :: cs)

theorem splitQuoteRun_length (cs : List Char) :
    (splitQuoteRun cs).2.length ≤ cs.length := by
  induction cs with
  | nil => simp [splitQuoteRun]
  | cons c cs ih =>
    by_cases h : c = '\'' <;> simp [splitQuoteRun, h]
    omega

/-- The quote re-escaping of `map_string_literal` (lines 19 and 35-36): the
regular expression `((?<!')'(?:'')*(?!'))` matches exactly the maximal
odd-length runs of single quotes (an even run can never satisfy both the
lookbehind at its start and the lookahead after an odd prefix), and the
substitution `'\1` prepends one quote to each such run. -/
def escQuotes : List Char → List Char
  | [] => []
  | c :: cs =>
    if c = '\'' then
      let n := (splitQuoteRun cs).1 + 1
      List.replicate (if n % 2 = 1 then n + 1 else n) '\'' ++
        escQuotes (splitQuoteRun cs).2
    else c :: escQuotes cs
termination_by l => l.length
decreasing_by
  · have := splitQuoteRun_length cs
    simp
    omega
  · simp


/-- Interleaves rendered operands with operator strings (used only by the
`Operation` arm, which has no handler in the provided sources). -/
def interleaveOps : List String → List String → String
  | [], _ => ""
  | [x], _ => x
  | x :: xs, [] => x ++ interleaveOps xs []
  | x :: xs, o :: os => x ++ o ++ interleaveOps xs os

mutual

/-- One `self.rec` call of `LokiStringifyMapper` (precedence bookkeeping is
dropped: none of the handlers embedded here consult the enclosing
precedence).  Handler by handler:
* `map_logic_literal` (lines 24-25) and the aliased `map_int_literal`
  (line 33): `str(expr.value)`, the stored value printed verbatim;
* `map_float_literal` (lines 27-31): value with an `_kind` suffix when a kind
  is present;
* `map_string_literal` (lines 35-36): quoted, with `escQuotes` re-escaping;
* `map_scalar` (lines 38-43): `parent%basename` through the parent link, or
  the plain name when there is no parent;
* `map_array` (lines 45-54): joined dimensions in parentheses when the joined
  string is non-empty, a `parent%` prefix, and an ` = initial` suffix (the
  source guards that suffix on `expr.type.initial`; type descriptor objects
  live in the missing `symbol_types.py`, so the guard is modelled by the
  presence of the node's `initial`);
* `map_inline_call = StringifyMapper.map_call_with_kwargs` (line 56): the
  pymbolic form `name(arg, ..., key=value, ...)`;
* `map_cast` (lines 58-68): `name(argument, kind=k)`, the kind clause only
  when a kind is present (the source distinguishes expression kinds from
  plain-string kinds; embedded kinds are expression nodes);
* `map_range_index` (lines 70-76): `lower:upper` or `lower:upper:step`, each
  side blank when absent;
* `Operation` has no handler in the provided sources (its class, in the
  missing `symbol_types.py`, decides how it prints); it is rendered here as
  the operands interleaved with the operator strings — no claim depends on
  this arm;
* `map_string_concat` (lines 87-88): parts joined with ` // `;
* `map_literal_list` (lines 90-91): bracketed elements joined with `,` (the
  source calls Python `str(c)` on each element; that is modelled by this
  stringifier). -/
def stringify : Expr → String
  | .scalar n p =>
    match p with
    | some pe => stringify pe ++ "%" ++ basename n
    | none => n
  | .array n p dims _ init =>
    let ds := String.intercalate ","
      (match dims with | some dl => stringifyList dl | none => [])
    let dstr := if ds = "" then "" else "(" ++ ds ++ ")"
    let par := match p with | some pe => stringify pe ++ "%" | none => ""
    let ini := match init with | some ie => " = " ++ stringify ie | none => ""
    par ++ basename n ++ dstr ++ ini
  | .intLit v _ => toString v
  | .floatLit v k =>
    match k with
    | some ks => v ++ "_" ++ ks
    | none => v
  | .logicLit v => v
  | .stringLit v => "'" ++ String.mk (escQuotes v.toList) ++ "'"
  | .rangeIdx l u s =>
    let ls := match l with | some le => stringify le | none => ""
    let us := match u with | some ue => stringify ue | none => ""
    match s with
    | some se => ls ++ ":" ++ us ++ ":" ++ stringify se
    | none => ls ++ ":" ++ us
  | .operation ops xs _ => interleaveOps (stringifyList xs) ops
  | .inlineCall n args kwargs =>
    n ++ "(" ++
      String.intercalate ", " (stringifyList args ++ stringifyKwargs kwargs) ++ ")"
  | .cast f a k =>
    stringify f ++ "(" ++ stringify a ++
      (match k with | some ke => ", kind=" ++ stringify ke | none => "") ++ ")"
  | .literalList es => "[" ++ String.intercalate "," (stringifyList es) ++ "]"
  | .stringConcat ps => String.intercalate " // " (stringifyList ps)

/-- Stringification of a list of children, left to right. -/
def stringifyList : List Expr → List String
  | [] => []
  | e :: es => stringify e :: stringifyList es

/-- Stringification of keyword arguments as `key=value`. -/
def stringifyKwargs : List (String × Expr) → List String
  | [] => []
  | (k, e) :: es => (k ++ "=" ++ stringify e) :: stringifyKwargs es

end

/-! ## ExpressionDimensionsMapper (src/loki/expression/visitors.py, lines 154-191)

The result of one `self.rec` call is a tuple of dimension entries.  Entries
can be Python `None` (a bare-colon dimension whose declared shape is absent),
so an entry is an `Option Expr`; a recursion that raises (an index error on
an empty tuple, `.value` on a non-literal bound, integer division by zero, a
node kind without a handler) or that hits behaviour decided by the missing
`symbol_types.py` class hierarchy yields `none` for the whole call. -/

/-- The bare-colon test of `map_array` (line 179): the entry is a
`RangeIndex` whose lower and upper bounds are both absent (the step is not
inspected). -/
def isBareColon : Option Expr → Bool
  | some (.rangeIdx none none _) => true
  | _ => false

/-- The singleton test of `map_array` (line 182): structural equality with
`IntLiteral(1)` — an integer literal of value 1 with no kind parameter. -/
def isLitOne : Option Expr → Bool
  | some (.intLit 1 none) => true
  | _ => false

/-- Reads the integer value of a concrete-literal bound; `none` models the
paths where Python would not reach a plain integer (`.value` on a missing or
non-integer node, or symbolic arithmetic that the missing `symbol_types.py`
would have to fold). -/
def litValue : Option Expr → Option Int
  | some (.intLit v _) => some v
  | _ => none

mutual

/-- One `self.rec` call of `ExpressionDimensionsMapper`.  Handler by handler:
* `map_algebraic_leaf` (lines 162-164) and its aliases for logic/float/int
  literals and scalars (lines 166-169): the shape `(IntLiteral(1),)`;
* `map_array` (lines 171-183): with no explicit dimension list, the declared
  shape is returned verbatim (`none` when the shape is also absent, modelling
  the Python `None` return); with an explicit list, each dimension's inferred
  size is `self.rec(d)[0]`, bare-colon entries are replaced positionally from
  `expr.shape or [None] * len(dims)` (Python truthiness: an absent or empty
  shape is replaced by a list of `None`s; `zip` truncates to the shorter
  list), and singleton entries equal to `IntLiteral(1)` are dropped;
* `map_range_index` (lines 185-191): a range with both bounds absent returns
  itself; otherwise the extent is `(upper - lower) // step` with
  `lower = expr.lower.value - 1` (or `0` when absent) and
  `step = expr.step.value` (or `1` when absent). Modelled from the spec:
  `IntLiteral` arithmetic folds numerically (section 4.4's floor-division
  extent formula); `symbol_types.py`, which would decide how `upper - lower`
  evaluates, is not among the provided sources.  Floor division is Python's
  `//` (`Int.fdiv`); a zero step, which raises in Python, yields `none`;
* every other node kind has no handler in the provided sources and yields
  `none`. -/
def dimsMap : Expr → Option (List (Option Expr))
  | .logicLit _ => some [some (.intLit 1 none)]
  | .floatLit _ _ => some [some (.intLit 1 none)]
  | .intLit _ _ => some [some (.intLit 1 none)]
  | .scalar _ _ => some [some (.intLit 1 none)]
  | .array _ _ dims shape _ =>
    match dims with
    | none => shape.map (fun s => s.map some)
    | some ds =>
      (dimsHeads ds).map (fun dims0 =>
        let shapeL : List (Option Expr) :=
          match shape with
          | some s =>
            if s.isEmpty then List.replicate dims0.length none else s.map some
          | none => List.replicate dims0.length none
        let dims1 := List.zipWith (fun d s => if isBareColon d then s else d)
          dims0 shapeL
        dims1.filter (fun d => !(isLitOne d)))
  | .rangeIdx none none s => some [some (.rangeIdx none none s)]
  | .rangeIdx l u s =>
    match litValue u with
    | none => none
    | some uv =>
      let l0 : Option Int :=
        match l with
        | none => some 0
        | some le => (litValue (some le)).map (fun lv => lv - 1)
      let st : Option Int :=
        match s with
        | none => some 1
        | some se => litValue (some se)
      match l0, st with
      | some lv, some sv =>
        if sv = 0 then none else some [some (.intLit ((uv - lv).fdiv sv) none)]
      | _, _ => none
  | _ => none

/-- The comprehension `[self.rec(d)[0] for d in expr.dimensions]` (line 176):
the head of each recursive result, failing on an empty result tuple. -/
def dimsHeads : List Expr → Option (List (Option Expr))
  | [] => some []
  | d :: ds =>
    match dimsMap d with
    | none => none
    | some l =>
      match l.head? with
      | none => none
      | some h => (dimsHeads ds).map (fun t => h :: t)

end

/-! ## ExpressionCallbackMapper (src/loki/expression/visitors.py, lines 194-239) -/

mutual

/-- One `self.rec` call of `ExpressionCallbackMapper` with callback `cb` and
combinator `comb`.  Handler by handler:
* `map_constant` (lines 204-205) and its aliases (lines 207-212) for
  logic/int/float/string literals, scalars AND arrays: the callback applied
  to the node itself — in particular `map_array = map_constant` (line 212),
  so an array reference is a leaf and its dimension list is never folded;
* `map_inline_call` (lines 214-217): combine over the folded positional
  arguments followed by the folded keyword-argument values;
* `map_cast` (lines 219-225): combine over the folded function, the folded
  first parameter, and the folded kind when one is present (the source skips
  plain-string kinds; embedded kinds are expression nodes);
* `map_range_index` (lines 227-231): combine over the folded
  lower/upper/step, keeping only the present ones, in that order;
* `Operation` and `map_string_concat` go through the aliased
  `CombineMapper.map_sum`/`map_product` handlers (lines 233-236): combine
  over the folded children in order (`Operation`'s class is in the missing
  `symbol_types.py`; the spec, section 4.4, folds its structural children);
* `map_literal_list` (lines 238-239): combine over the folded elements. -/
def cbFold {T : Type} (cb : Expr → T) (comb : List T → T) : Expr → T
  | .logicLit v => cb (.logicLit v)
  | .intLit v k => cb (.intLit v k)
  | .floatLit v k => cb (.floatLit v k)
  | .stringLit v => cb (.stringLit v)
  | .scalar n p => cb (.scalar n p)
  | .array n p dims shape init => cb (.array n p dims shape init)
  | .inlineCall _ args kwargs =>
    comb (cbFoldList cb comb args ++ cbFoldKwargs cb comb kwargs)
  | .cast f a k =>
    comb ([cbFold cb comb f, cbFold cb comb a] ++ cbFoldOpt cb comb k)
  | .rangeIdx l u s =>
    comb (cbFoldOpt cb comb l ++ cbFoldOpt cb comb u ++ cbFoldOpt cb comb s)
  | .operation _ xs _ => comb (cbFoldList cb comb xs)
  | .literalList es => comb (cbFoldList cb comb es)
  | .stringConcat ps => comb (cbFoldList cb comb ps)

/-- Folds a list of children left to right. -/
def cbFoldList {T : Type} (cb : Expr → T) (comb : List T → T) : List Expr → List T
  | [] => []
  | e :: es => cbFold cb comb e :: cbFoldList cb comb es

/-- Folds the keyword-argument values left to right. -/
def cbFoldKwargs {T : Type} (cb : Expr → T) (comb : List T → T) :
    List (String × Expr) → List T
  | [] => []
  | (_, e) :: es => cbFold cb comb e :: cbFoldKwargs cb comb es

/-- Folds an optional child: a singleton when present, empty when absent. -/
def cbFoldOpt {T : Type} (cb : Expr → T) (comb : List T → T) :
    Option Expr → List T
  | some e => [cbFold cb comb e]
  | none => []

end

/-- The ordered structural-children view of a node, following the
specification (sections 3, 4.4 and 6): the dimension list of an array
reference, the present bounds of a range, the operands of an operation, the
positional arguments then keyword-argument values of an inline call, the
function, argument and kind of a cast, and the elements/parts of literal
lists and string concatenations.  Literals and scalar references have no
structural children (`parent` links are non-owning, section 3). -/
def structuralChildren : Expr → List Expr
  | .scalar _ _ => []
  | .array _ _ dims _ _ => dims.getD []
  | .intLit _ _ => []
  | .floatLit _ _ => []
  | .logicLit _ => []
  | .stringLit _ => []
  | .rangeIdx l u s => l.toList ++ u.toList ++ s.toList
  | .operation _ xs _ => xs
  | .inlineCall _ args kwargs => args ++ kwargs.map (fun p => p.2)
  | .cast f a k => [f, a] ++ k.toList
  | .literalList es => es
  | .stringConcat ps => ps

/-- The node kinds on which `ExpressionCallbackMapper` invokes the callback
directly (the `map_constant` aliases, lines 204-212): the four literal kinds,
scalar references, and array references. -/
def isCallbackLeaf : Expr → Bool
  | .scalar _ _ => true
  | .array _ _ _ _ _ => true
  | .intLit _ _ => true
  | .floatLit _ _ => true
  | .logicLit _ => true
  | .stringLit _ => true
  | _ => false

theorem cbFoldList_map {T : Type} (cb : Expr → T) (comb : List T → T)
    (l : List Expr) : cbFoldList cb comb l = l.map (cbFold cb comb) := by
  induction l with
  | nil => simp [cbFoldList]
  | cons e es ih => simp [cbFoldList, ih]

theorem cbFoldKwargs_map {T : Type} (cb : Expr → T) (comb : List T → T)
    (l : List (String × Expr)) :
    cbFoldKwargs cb comb l = (l.map (fun p => p.2)).map (cbFold cb comb) := by
  induction l with
  | nil => simp [cbFoldKwargs]
  | cons p es ih => obtain ⟨k, e⟩ := p; simp [cbFoldKwargs, ih]

theorem cbFoldOpt_map {T : Type} (cb : Expr → T) (comb : List T → T)
    (o : Option Expr) : cbFoldOpt cb comb o = o.toList.map (cbFold cb comb) := by
  cases o <;> simp [cbFoldOpt]

/-! ## OFP lowering: the WHERE branch of visit_statement
(src/loki/frontend/ofp2ir.py, lines 130-153)

The children of a `where`-construct statement are lowered individually and
`None`s are dropped; `visit_elsewhere_stmt` and `visit_end_where_stmt`
(lines 157-163) return the sentinel strings `ELSEWHERE_CONSTRUCT` and
`ENDWHERE_CONSTRUCT`, every other child lowers to an IR node.  The lowered
child list is modelled with an abstract node type `α`; Python's `==` between
a sentinel string and an IR node is `False`, so membership tests and
`list.index` compare sentinels only with sentinels. -/

/-- A lowered child of a `where`-construct statement: one of the two sentinel
markers, or an ordinary IR node. -/
inductive WItem (α : Type) where
  | elsewhereMarker
  | endwhereMarker
  | node (x : α)
deriving DecidableEq

/-- Python `item == 'ENDWHERE_CONSTRUCT'`. -/
def isEndwhere {α : Type} : WItem α → Bool
  | .endwhereMarker => true
  | _ => false

/-- Python `item == 'ELSEWHERE_CONSTRUCT'`. -/
def isElsewhere {α : Type} : WItem α → Bool
  | .elsewhereMarker => true
  | _ => false

/-- The `MaskedStatement(condition=..., body=..., default=...)` produced for
one partition (line 149); the fields hold whatever the source slices put
there, so they range over lowered children (which can include sentinels). -/
structure Masked (α : Type) where
  condition : WItem α
  body : List (WItem α)
  default : List (WItem α)
deriving DecidableEq

/-- The partition loop of `visit_statement`'s WHERE branch (lines 135-153):
while `ENDWHERE_CONSTRUCT` occurs in the remaining children, take the prefix
`w_children` before its first occurrence; `condition = w_children[0]` (an
index error — hence `none` — when the partition is empty); when
`ELSEWHERE_CONSTRUCT` occurs in the partition at first index `iw`,
`body = w_children[1:iw]` and `default = w_children[iw:]` (the slice starts
AT the marker, so the marker itself is the first element of `default`);
otherwise `body = w_children[1:]` and `default = ()`.  The consumed prefix
and the marker are dropped and the loop continues on the rest. -/
def visit_statement_where {α : Type} (children : List (WItem α)) :
    Option (List (Masked α)) :=
  if hasEnd : children.any isEndwhere then
    let iend := children.findIdx isEndwhere
    match children.take iend with
    | [] => none
    | cond :: _ =>
      let w := children.take iend
      let m : Masked α :=
        if w.any isElsewhere then
          let iw := w.findIdx isElsewhere
          ⟨cond, (w.drop 1).take (iw - 1), w.drop iw⟩
        else
          ⟨cond, w.drop 1, []⟩
      (visit_statement_where (children.drop (iend + 1))).map (fun r => m :: r)
  else
    some []
termination_by children.length
decreasing_by
  have hlt : children.findIdx isEndwhere < children.length := by
    simp only [List.any_eq_true] at hasEnd
    exact List.findIdx_lt_length_of_exists hasEnd
  simp [List.length_drop]
  omega

/-! ## OFP lowering: the default element handler
(src/loki/frontend/ofp2ir.py, lines 62-73)

`lookup_method` (lines 42-50) dispatches on the element tag and falls back to
the universal default `visit_Element` for any tag without a dedicated
handler.  The specification's error taxonomy (section 7) names an
`UnsupportedConstruct` failure mode; no such exception exists anywhere in the
provided sources, and `visit_Element` has no raise statement, so the
embedding's error type is never produced. -/

/-- Modelled from the spec: the `UnsupportedConstruct` failure mode of the
specification's error taxonomy (section 7).  It exists here only so that the
result type of `visit_Element` can express whether the handler raises; the
provided sources define no such exception. -/
inductive OFPError where
  | unsupportedConstruct
deriving DecidableEq

/-- The result of lowering one node: Python `None`, a single IR node, or a
tuple of IR nodes. -/
inductive LowerResult (α : Type) where
  | nothing
  | one (x : α)
  | many (xs : List α)
deriving DecidableEq

/-- `visit_Element` (lines 62-73), applied to the already-lowered children of
a node whose tag has no dedicated handler: drop the `None`s; with exactly one
remaining child return it (hierarchy flattening); otherwise return the tuple
of the remaining children, or `None` when none remain.  No exception is
raised on any path. -/
def visit_Element {α : Type} (children : List (Option α)) :
    Except OFPError (LowerResult α) :=
  let cs := children.filterMap id
  match cs with
  | [x] => .ok (.one x)
  | [] => .ok .nothing
  | xs => .ok (.many xs)

/-! ## OFP lowering: compound name reconstruction
(src/loki/frontend/ofp2ir.py, lines 355-391)

`visit_name` lowers the children of a `name` element (part-ref leaf tokens,
which lower to plain strings, and subscript lists, which lower to tuples),
pushes them into a deque, and pops from the tail: each popped leaf token
takes the adjacent tuple to its left (if any) as its pending indices and
becomes a node via `generate_variable`; the first popped node is the returned
base, and each later node is assigned to the previous node's `ref` attribute.
Modelled from the spec (section 4.1): `ref` is the variable's `parent` link
("the previous node's `parent` link is set to the new leaf"); the `Variable`
class that implements it is in the missing `symbol_types.py`, as is the
factory that makes a `Variable` with dimensions an array reference and one
without a scalar reference (section 3). -/

/-- One lowered child of a `name` element: a part-ref leaf token or a
subscript tuple. -/
inductive NameItem where
  | tok (s : String)
  | indices (xs : List Expr)

/-- The tail-popping pass of `visit_name` (lines 373-390), run on the
reversed child list: each leaf token pairs with the tuple immediately to its
left, if any.  A tuple in leaf-token position makes `generate_variable` call
`.upper()` on a tuple — an attribute error, modelled as `none`. -/
def popPairs : List NameItem → Option (List (String × Option (List Expr)))
  | [] => some []
  | .indices _ :: _ => none
  | .tok s :: rest =>
    match rest with
    | .indices xs :: rest2 => (popPairs rest2).map (fun t => (s, some xs) :: t)
    | [] => some [(s, none)]
    | .tok s2 :: rest2 =>
      (popPairs (.tok s2 :: rest2)).map (fun t => (s, none) :: t)
termination_by l => l.length
decreasing_by all_goals simp <;> omega

/-- The intrinsic whitelist of `generate_variable` (line 358), matched
case-insensitively. -/
def intrinsicWhitelist : List String :=
  ["MIN", "MAX", "EXP", "SQRT", "ABS", "LOG"]

/-- Python `str.upper()` over ASCII: uppercase every character. -/
def upperName (s : String) : String :=
  String.mk (s.toList.map Char.toUpper)

/-- Builds the chain from the pairs in pop order (rightmost token first):
the head pair becomes the returned base and each node's parent is the node
built from the remaining pairs (`variable.ref = generate_variable(...)`,
lines 387-389).  Per pair, `generate_variable` (lines 357-364): a
whitelisted intrinsic name becomes an `InlineCall` (its arguments are the
pending indices; a bare intrinsic token has none); an explicitly empty index
tuple becomes an `InlineCall` named by the enclosing name element's `id`
attribute (`oid`) — the zero-argument external-call heuristic; anything else
becomes a variable carrying the pending indices as its dimensions.  An
`InlineCall` has no parent link, so a chain that would assign `ref` on one
(a non-final pair lowering to an `InlineCall`) is not modelled and yields
`none`.  The outer `Option` is the error; the inner one is the returned
base, which is Python `None` for an empty child list. -/
def buildChain (oid : String) : List (String × Option (List Expr)) →
    Option (Option Expr)
  | [] => some none
  | (vname, idx) :: rest =>
    (buildChain oid rest).bind (fun par =>
      if upperName vname ∈ intrinsicWhitelist then
        match par with
        | none => some (some (.inlineCall vname (idx.getD []) []))
        | some _ => none
      else
        match idx with
        | some [] =>
          match par with
          | none => some (some (.inlineCall oid [] []))
          | some _ => none
        | some (x :: xs) => some (some (.array vname par (some (x :: xs)) none none))
        | none => some (some (.scalar vname par)))

/-- `visit_name` (lines 355-391) on the lowered, `None`-filtered children of
a `name` element with `id` attribute `oid`. -/
def visit_name (oid : String) (children : List NameItem) : Option (Option Expr) :=
  (popPairs children.reverse).bind (buildChain oid)

/-! ## OFP lowering: comments and pragmas
(src/loki/frontend/ofp2ir.py, lines 111-121)

`visit_comment` searches the node's raw source text with the pattern
`\!\$(?P<keyword>\w+)\s+(?P<content>.*)` (line 112).  The regular expression
is modelled operationally: `re.search` tries every start position from the
left; at a given position the pattern needs `!`, `$`, a maximal non-empty
run of word characters (greedy `\w+`; no backtracking can help, since the
run must be followed by whitespace and word and whitespace characters are
disjoint), a maximal non-empty run of whitespace (greedy `\s+`; `.*` accepts
anything, so the maximal run is kept), and the content is the rest of the
line (`.` does not match a newline).  `re.IGNORECASE` is irrelevant: none of
`!`, `$`, `\w`, `\s` are case-sensitive.  Word and whitespace characters are
modelled over ASCII. -/

/-- Python `\w` over ASCII: letters, digits and underscore. -/
def isWordChar (c : Char) : Bool :=
  c.isAlphanum || c = '_'

/-- Python `\s` over ASCII: space, tab, newline, carriage return, vertical
tab and form feed. -/
def isSpaceChar (c : Char) : Bool :=
  c = ' ' || c = '\t' || c = '\n' || c = '\x0d' || c = '\x0b' || c = '\x0c'

/-- The capture part of one match attempt, after the literal `!$` prefix:
a maximal non-empty run of word characters (the keyword), a maximal
non-empty run of whitespace, and the rest of the line (the content). -/
def pragmaCapture (rest : List Char) : Option (List Char × List Char) :=
  let kw := rest.takeWhile isWordChar
  if kw.isEmpty then none
  else
    let r1 := rest.dropWhile isWordChar
    let ws := r1.takeWhile isSpaceChar
    if ws.isEmpty then none
    else
      let r2 := r1.dropWhile isSpaceChar
      some (kw, r2.takeWhile (fun c => c != '\n'))

/-- One anchored match attempt of the pragma pattern at the head of the
list, returning the keyword and content captures. -/
def tryPragmaAt : List Char → Option (List Char × List Char)
  | c1 :: c2 :: rest =>
    if c1 = '!' then (if c2 = '$' then pragmaCapture rest else none) else none
  | _ => none

/-- `re.search`: the leftmost successful match attempt. -/
def pragmaSearch : List Char → Option (List Char × List Char)
  | [] => none
  | c :: cs =>
    match tryPragmaAt (c :: cs) with
    | some r => some r
    | none => pragmaSearch cs

/-- The IR produced by `visit_comment`: a `Pragma(keyword, content)` or a
`Comment(text)`. -/
inductive CommentIR where
  | pragma (keyword content : String)
  | comment (text : String)
deriving DecidableEq

/-- `visit_comment` (lines 114-121): when the pragma pattern matches the
node's raw source text, a `Pragma` with the two captures; otherwise a
`Comment` carrying the node's `text` attribute. -/
def visit_comment (sourceString textAttrib : String) : CommentIR :=
  match pragmaSearch sourceString.toList with
  | some (k, c) => .pragma (String.mk k) (String.mk c)
  | none => .comment textAttrib

/-- Declarative occurrence of the pragma pattern in a character list: some
position is followed by `!$`, a non-empty run of word characters, and at
least one whitespace character. -/
def PragmaOccurs (s kw : List Char) : Prop :=
  ∃ pre ws rest, s = pre ++ '!' :: '$' :: (kw ++ ws ++ rest) ∧
    kw ≠ [] ∧ kw.all isWordChar ∧ ws ≠ [] ∧ ws.all isSpaceChar

/-! ## OFP lowering: literals (src/loki/frontend/ofp2ir.py, lines 409-419) -/

/-- The `Literal(value=..., kind=..., type=...)` node built by
`visit_literal` (the `Literal` factory itself is in the missing
`symbol_types.py`; only the attribute plumbing of `visit_literal` is
embedded). -/
structure OFPLiteral where
  value : String
  kind : Option String
  type : Option String
deriving DecidableEq

/-- `visit_literal` (lines 409-419) on the extracted attributes: the value
string is passed through except that the Fortran BOOL keywords are
overridden — `false` becomes `.FALSE.` and `true` becomes `.TRUE.`. -/
def visit_literal (value : String) (kind typ : Option String) : OFPLiteral :=
  let v1 := if value = "false" then ".FALSE." else value
  let v2 := if v1 = "true" then ".TRUE." else v1
  ⟨v2, kind, typ⟩

/-! ## Auxiliary lemmas for the pragma pattern -/

theorem dropWhile_append_all (p : Char → Bool) (l1 l2 : List Char) (h : l1.all p) :
    (l1 ++ l2).dropWhile p = l2.dropWhile p := by
  induction l1 with
  | nil => simp
  | cons c cs ih =>
    simp only [List.all_cons, Bool.and_eq_true] at h
    simp [List.dropWhile_cons, h.1, ih h.2]

theorem takeWhile_append_all (p : Char → Bool) (l1 l2 : List Char) (h : l1.all p) :
    (l1 ++ l2).takeWhile p = l1 ++ l2.takeWhile p := by
  induction l1 with
  | nil => simp
  | cons c cs ih =>
    simp only [List.all_cons, Bool.and_eq_true] at h
    simp [List.takeWhile_cons, h.1, ih h.2]

theorem space_not_word (c : Char) (h : isSpaceChar c = true) : isWordChar c = false := by
  simp only [isSpaceChar, Bool.or_eq_true, decide_eq_true_eq] at h
  rcases h with ((((h | h) | h) | h) | h) | h <;> subst h <;> decide

theorem pragmaCapture_sound (rest k c : List Char)
    (h : pragmaCapture rest = some (k, c)) :
    ∃ ws r2, rest = k ++ ws ++ r2 ∧ k ≠ [] ∧ k.all isWordChar ∧
      ws ≠ [] ∧ ws.all isSpaceChar ∧ c = r2.takeWhile (fun x => x != '\n') := by
  unfold pragmaCapture at h
  by_cases hkw : (rest.takeWhile isWordChar).isEmpty
  · simp [hkw] at h
  · simp only [hkw, if_false] at h
    by_cases hws : ((rest.dropWhile isWordChar).takeWhile isSpaceChar).isEmpty
    · simp [hws] at h
    · simp only [hws, if_false, Option.some.injEq, Prod.mk.injEq] at h
      obtain ⟨rfl, rfl⟩ := h
      refine ⟨(rest.dropWhile isWordChar).takeWhile isSpaceChar,
        (rest.dropWhile isWordChar).dropWhile isSpaceChar, ?_, ?_,
        List.all_takeWhile, ?_, List.all_takeWhile, rfl⟩
      · rw [List.append_assoc, List.takeWhile_append_dropWhile,
          List.takeWhile_append_dropWhile]
      · simpa [List.isEmpty_iff] using hkw
      · simpa [List.isEmpty_iff] using hws

theorem pragmaCapture_complete (k ws tail : List Char) (hk : k ≠ [])
    (hkw : k.all isWordChar) (hws : ws ≠ []) (hwss : ws.all isSpaceChar) :
    (pragmaCapture (k ++ ws ++ tail)).isSome := by
  obtain ⟨w0, ws', rfl⟩ : ∃ w0 ws', ws = w0 :: ws' := by
    cases ws with
    | nil => exact absurd rfl hws
    | cons a b => exact ⟨a, b, rfl⟩
  have hw0 : isSpaceChar w0 = true := by
    simp only [List.all_cons, Bool.and_eq_true] at hwss
    exact hwss.1
  have hw0w : isWordChar w0 = false := space_not_word w0 hw0
  have htake : ((k ++ (w0 :: ws') ++ tail).takeWhile isWordChar) = k := by
    rw [List.append_assoc, takeWhile_append_all _ _ _ hkw]
    simp [List.takeWhile_cons, hw0w]
  have hdrop : ((k ++ (w0 :: ws') ++ tail).dropWhile isWordChar)
      = w0 :: (ws' ++ tail) := by
    rw [List.append_assoc, dropWhile_append_all _ _ _ hkw]
    simp [List.dropWhile_cons, hw0w]
  unfold pragmaCapture
  rw [htake, hdrop]
  have h1 : k.isEmpty = false := by simpa [List.isEmpty_iff] using hk
  simp [h1, List.takeWhile_cons, hw0]

theorem pragmaSearch_some_split (s : List Char) (r : List Char × List Char)
    (h : pragmaSearch s = some r) :
    ∃ pre suf, s = pre ++ suf ∧ tryPragmaAt suf = some r := by
  induction s with
  | nil => simp [pragmaSearch] at h
  | cons c cs ih =>
    rw [pragmaSearch] at h
    cases htry : tryPragmaAt (c :: cs) with
    | some r' =>
      rw [htry] at h
      have h' : some r' = some r := h
      exact ⟨[], c :: cs, rfl, by rw [htry]; exact h'⟩
    | none =>
      rw [htry] at h
      have h' : pragmaSearch cs = some r := h
      obtain ⟨pre, suf, hsplit, hsuf⟩ := ih h'
      exact ⟨c :: pre, suf, by simp [hsplit], hsuf⟩

theorem pragmaSearch_none_all (s : List Char) (h : pragmaSearch s = none) :
    ∀ pre suf, s = pre ++ suf → tryPragmaAt suf = none := by
  induction s with
  | nil =>
    intro pre suf hsplit
    have hsuf : suf = [] := by
      cases pre with
      | nil => simpa using hsplit.symm
      | cons p ps => simp at hsplit
    simp [hsuf, tryPragmaAt]
  | cons c cs ih =>
    rw [pragmaSearch] at h
    cases htry : tryPragmaAt (c :: cs) with
    | some r' =>
      rw [htry] at h
      exact absurd (show some r' = none from h) (by simp)
    | none =>
      rw [htry] at h
      have h' : pragmaSearch cs = none := h
      intro pre suf hsplit
      cases pre with
      | nil =>
        simp only [List.nil_append] at hsplit
        rw [← hsplit]
        exact htry
      | cons p ps =>
        simp only [List.cons_append, List.cons.injEq] at hsplit
        exact ih h' ps suf hsplit.2

theorem tryPragmaAt_sound (suf : List Char) (k c : List Char)
    (h : tryPragmaAt suf = some (k, c)) :
    ∃ ws rest, suf = '!' :: '$' :: (k ++ ws ++ rest) ∧ k ≠ [] ∧
      k.all isWordChar ∧ ws ≠ [] ∧ ws.all isSpaceChar := by
  match suf with
  | [] => simp [tryPragmaAt] at h
  | [c1] => simp [tryPragmaAt] at h
  | c1 :: c2 :: rest =>
    rw [tryPragmaAt] at h
    by_cases h1 : c1 = '!'
    · by_cases h2 : c2 = '$'
      · simp only [h1, h2, if_true] at h
        obtain ⟨ws, r2, hsplit, hk, hkw, hws, hwss, _⟩ :=
          pragmaCapture_sound rest k c h
        exact ⟨ws, r2, by rw [h1, h2, hsplit], hk, hkw, hws, hwss⟩
      · simp [h1, h2] at h
    · simp [h1] at h

/-! ## Concrete query and fold instances used by counterexamples -/

/-- A query matching exactly the integer literals. -/
def isIntLitQ : Expr → Bool
  | .intLit _ _ => true
  | _ => false

/-- A leaf callback counting array references. -/
def cbCountArrays : Expr → Nat
  | .array _ _ _ _ _ => 1
  | _ => 0

/-- A combinator summing its inputs. -/
def combSum (l : List Nat) : Nat := l.foldl (fun a b => a + b) 0

/-- The array reference `a(i)`: an explicit one-entry dimension list. -/
def exampleArrayRef : Expr := .array "a" none (some [.scalar "i" none]) none none

/-! ## Claim theorems -/

/-- Claim C1: the spec claims that when an `ELSEWHERE_CONSTRUCT` marker
occurs inside a WHERE partition, the default branch is exactly the elements
strictly after the marker, the marker itself belonging to neither body nor
default.  The code slices `default = w_children[iw:]`, which starts AT the
marker: on the lowered children `(cond, stmt1, ELSEWHERE, stmt2, ENDWHERE)`
the produced `MaskedStatement` has `default = (ELSEWHERE_CONSTRUCT, stmt2)` —
the sentinel marker leaks into the IR — and not `(stmt2,)` as claimed. -/
theorem where_default_contains_elsewhere_marker :
    visit_statement_where
      [WItem.node 0, WItem.node 1, WItem.elsewhereMarker, WItem.node 2,
        WItem.endwhereMarker] =
      some [⟨WItem.node 0, [WItem.node 1],
        [WItem.elsewhereMarker, WItem.node 2]⟩] ∧
    visit_statement_where
      [WItem.node 0, WItem.node 1, WItem.elsewhereMarker, WItem.node 2,
        WItem.endwhereMarker] ≠
      some [⟨WItem.node 0, [WItem.node 1], [WItem.node (2 : ℕ)]⟩] := by
  have h : visit_statement_where
      [WItem.node 0, WItem.node 1, WItem.elsewhereMarker, WItem.node 2,
        WItem.endwhereMarker] =
      some [⟨WItem.node 0, [WItem.node 1],
        [WItem.elsewhereMarker, WItem.node (2 : ℕ)]⟩] := by
    rw [visit_statement_where]
    norm_num [isEndwhere, isElsewhere, List.findIdx, List.findIdx.go]
    rw [visit_statement_where]
    norm_num [isEndwhere]
  exact ⟨h, by rw [h]; decide⟩

/-- Claim C2 (counterexample): the spec claims a node whose tag has no
dedicated handler and that has more than one non-flattenable child raises
`UnsupportedConstruct`.  The default handler `visit_Element` contains no
raise statement (and no `UnsupportedConstruct` exists anywhere in the
provided sources): on two non-`None` lowered children it returns the
two-element tuple, an ordinary IR result. -/
theorem visit_Element_two_children_returns_tuple :
    visit_Element [some (0 : ℕ), some 1] = .ok (.many [0, 1]) := rfl

/-- Claim C2 (amended): for a node whose tag has no dedicated handler and
with two or more children whose lowering is not `None`, the default handler
returns the tuple of the non-`None` lowered children; no exception is
raised. -/
theorem visit_Element_many_children (α : Type) (children : List (Option α))
    (h : 2 ≤ (children.filterMap id).length) :
    visit_Element children = .ok (.many (children.filterMap id)) := by
  simp only [visit_Element]
  match hc : children.filterMap id with
  | [] => rw [hc] at h; simp at h
  | [x] => rw [hc] at h; simp at h
  | x :: y :: rest => rfl

/-- Witness for claim C2's amended theorem at a concrete three-child
input. -/
theorem visit_Element_many_children_witness :
    visit_Element [some (5 : ℕ), some 6, some 7] = .ok (.many [5, 6, 7]) :=
  visit_Element_many_children ℕ [some 5, some 6, some 7] (by decide)

/-- Claim C3: the spec claims the retriever recurses into every structural
child of every composite node kind, including `LiteralList`, before testing
the composite node.  The source's `map_literal_list` calls the pre-visit
hook `self.visit(elem)` on each element — a no-op whose result is discarded —
instead of `self.rec(elem)`: the elements are neither descended into nor
tested.  On `LiteralList([IntLiteral(1)])` with a query matching integer
literals, the retriever returns no match even though the query holds on the
element. -/
theorem retriever_literal_list_elements_skipped :
    retrieve isIntLitQ [] (.literalList [.intLit 1 none]) = [] ∧
      isIntLitQ (.intLit 1 none) = true := by
  constructor
  · simp [retrieve, post_visit, isIntLitQ]
  · rfl

/-- Claim C4 (counterexample): the spec claims that in the generic fold,
every node with structural children — including an `ArrayRef` carrying an
explicit dimension list — folds to `combine` of its recursively folded
children.  The source aliases `map_array = map_constant`, so the array
reference `a(i)` invokes the leaf callback directly: with a callback
counting array references and a summing combinator, the fold yields `1`
while `combine` of the folded dimension-list children yields `0`. -/
theorem callback_mapper_array_leaf_counterexample :
    cbFold cbCountArrays combSum exampleArrayRef = cbCountArrays exampleArrayRef ∧
    cbFold cbCountArrays combSum exampleArrayRef ≠
      combSum ((structuralChildren exampleArrayRef).map
        (cbFold cbCountArrays combSum)) := by
  constructor
  · simp [exampleArrayRef, cbFold]
  · simp [cbFold, structuralChildren, exampleArrayRef, cbCountArrays, combSum]

/-- Claim C4 (amended): the generic fold invokes the leaf callback directly
on literals, scalar references AND array references (even those carrying an
explicit dimension list, whose dimensions are never folded); on every other
node it equals `combine` applied to the recursively folded structural
children in left-to-right child order. -/
theorem callback_mapper_structural_fold (T : Type) (cb : Expr → T)
    (comb : List T → T) (e : Expr) :
    cbFold cb comb e =
      if isCallbackLeaf e then cb e
      else comb ((structuralChildren e).map (cbFold cb comb)) := by
  cases e <;>
    simp [cbFold, isCallbackLeaf, structuralChildren, cbFoldList_map,
      cbFoldKwargs_map, cbFoldOpt_map]

/-- Claim C5: the spec claims the extent of
`RangeIndex(lower=2, upper=10, step=2)` evaluates to `5` (the strided range
`2:10:2` indeed has the five elements 2,4,6,8,10).  The code computes
`(upper - (lower - 1)) // step = (10 - 1) // 2 = 4`, off by one for any step
greater than one. -/
theorem range_index_extent_off_by_one :
    dimsMap (.rangeIdx (some (.intLit 2 none)) (some (.intLit 10 none))
        (some (.intLit 2 none))) = some [some (.intLit 4 none)] ∧
    dimsMap (.rangeIdx (some (.intLit 2 none)) (some (.intLit 10 none))
        (some (.intLit 2 none))) ≠ some [some (.intLit 5 none)] := by
  have h : dimsMap (.rangeIdx (some (.intLit 2 none)) (some (.intLit 10 none))
      (some (.intLit 2 none))) = some [some (.intLit 4 none)] := by
    simp [dimsMap, litValue]
  exact ⟨h, by rw [h]; simp⟩

/-- Claim C6: for an array `a` declared with shape `(10, 20)`, dimension
inference of `a(:,5)` yields `(10,)` — the bare-colon dimension replaced by
the declared-shape entry at its position — and inference of `a(3,5)` yields
the empty shape `()`, all singleton dimensions elided. -/
theorem dimension_inference_slice_and_scalar :
    dimsMap (.array "a" none
        (some [.rangeIdx none none none, .intLit 5 none])
        (some [.intLit 10 none, .intLit 20 none]) none) =
      some [some (.intLit 10 none)] ∧
    dimsMap (.array "a" none
        (some [.intLit 3 none, .intLit 5 none])
        (some [.intLit 10 none, .intLit 20 none]) none) = some [] := by
  constructor <;> simp [dimsMap, dimsHeads, isBareColon, isLitOne]

/-- Claim C7: lowering the compound name `a%b%c` yields a chain in which
`c`'s parent link is `b`, `b`'s parent link is `a`, and `a`'s parent link is
`None` (the returned base is the `c` node, whose structure pins all three
links), and stringifying the resulting node reproduces `"a%b%c"`. -/
theorem visit_name_derived_type_chain :
    visit_name "a%b%c" [.tok "a", .tok "b", .tok "c"] =
      some (some (.scalar "c" (some (.scalar "b" (some (.scalar "a" none)))))) ∧
    stringify (.scalar "c" (some (.scalar "b" (some (.scalar "a" none))))) =
      "a%b%c" := by
  have ha : ¬ (upperName "a" ∈ intrinsicWhitelist) := by decide
  have hb : ¬ (upperName "b" ∈ intrinsicWhitelist) := by decide
  have hc : ¬ (upperName "c" ∈ intrinsicWhitelist) := by decide
  constructor
  · simp [visit_name, popPairs, buildChain, ha, hb, hc]
  · simp [stringify, basename]

/-- Claim C8 (counterexample): the spec claims the stringifier renders every
logic literal as one of the uppercase keywords `.TRUE.`/`.FALSE.` regardless
of how the value is stored.  `map_logic_literal` is `str(expr.value)`: a
logic literal storing `.true.` renders as `.true.`, which is neither
canonical keyword. -/
theorem stringify_logic_literal_not_canonicalized :
    stringify (.logicLit ".true.") = ".true." ∧
      ".true." ≠ ".TRUE." ∧ ".true." ≠ ".FALSE." :=
  ⟨by simp [stringify], by decide, by decide⟩

/-- Claim C8 (amended): the stringifier renders a logic literal's stored
value string verbatim; the uppercase dot-bounded keywords appear because the
OFP lowering's `visit_literal` overrides the parsed values `true`/`false` to
`.TRUE.`/`.FALSE.` when the literal is built. -/
theorem stringify_logic_literal_verbatim :
    (∀ v, stringify (.logicLit v) = v) ∧
    (∀ k t, (visit_literal "true" k t).value = ".TRUE." ∧
      (visit_literal "false" k t).value = ".FALSE.") :=
  ⟨fun v => by simp [stringify], fun k t => ⟨rfl, rfl⟩⟩

/-- Claim C9: lowering a comment node whose raw source text matches the
pragma pattern `!$<keyword> <content>` produces a `Pragma` carrying that
keyword and content; every other comment node produces a `Comment` carrying
the node's `text` attribute.  The search result is characterized against the
declarative pattern occurrence `PragmaOccurs`: when the search succeeds the
text really contains `!$` followed by a non-empty word-character keyword and
at least one whitespace character, and when it fails no such occurrence
exists and the `text` attribute is wrapped in a `Comment`. -/
theorem visit_comment_pragma_spec (src text : String) :
    (∀ k c, pragmaSearch src.toList = some (k, c) →
      visit_comment src text = .pragma (String.mk k) (String.mk c) ∧
        PragmaOccurs src.toList k) ∧
    (pragmaSearch src.toList = none →
      visit_comment src text = .comment text ∧
        ∀ k, ¬ PragmaOccurs src.toList k) := by
  constructor
  · intro k c h
    constructor
    · rw [visit_comment, h]
    · obtain ⟨pre, suf, hsplit, hsuf⟩ := pragmaSearch_some_split _ _ h
      obtain ⟨ws, rest, hsuf2, hk, hkw, hws, hwss⟩ := tryPragmaAt_sound _ _ _ hsuf
      exact ⟨pre, ws, rest, by rw [hsplit, hsuf2], hk, hkw, hws, hwss⟩
  · intro h
    constructor
    · rw [visit_comment, h]
    · rintro k ⟨pre, ws, rest, hsplit, hk, hkw, hws, hwss⟩
      have hnone := pragmaSearch_none_all _ h pre ('!' :: '$' :: (k ++ ws ++ rest))
        hsplit
      have hsome : (tryPragmaAt ('!' :: '$' :: (k ++ ws ++ rest))).isSome := by
        rw [tryPragmaAt]
        simpa using pragmaCapture_complete k ws rest hk hkw hws hwss
      rw [hnone] at hsome
      simp at hsome

/-- Witness for claim C9's theorem on the concrete comment text
`!$omp parallel`. -/
theorem visit_comment_pragma_spec_witness :
    visit_comment "!$omp parallel" "c" = .pragma "omp" "parallel" ∧
      PragmaOccurs "!$omp parallel".toList "omp".toList :=
  (visit_comment_pragma_spec "!$omp parallel" "c").1
    "omp".toList "parallel".toList (by decide)

/-- Claim C10: an `ExpressionRetriever` instance accumulates matches across
invocations — its `exprs` list is initialized once and never reset — so
applying the same retriever to a second expression yields the first
expression's matches followed by the second expression's matches. -/
theorem retriever_accumulates_across_calls (q : Expr → Bool) (e1 e2 : Expr) :
    retrieve q (retrieve q [] e1) e2 = retrieve q [] e1 ++ retrieve q [] e2 :=
  retrieve_acc q (retrieve q [] e1) e2
